import Mathlib

/-!
Verification of the PredictedMovement modifier engine against its
natural-language specification.

The repository slice contains `Source/PredictedMovement/Public/Modifier/ModifierCharacter.h`.
The only executable logic in that file is the inline template
`AModifierCharacter::NotifyModifierChanged` (lines 36-50) and the
member initializers `SimulatedBoost/SimulatedSnare/SimulatedSlowFall = NO_MODIFIER`
(lines 79, 130, 182).  Those are embedded directly from the source below.
The stack, codec and reconciliation machinery are only declared there
(`Boost`, `UnBoost`, `OnRep_SimulatedBoost`, ...), so their behaviour is
modelled from the specification; such definitions carry a
`Modelled from the spec:` doc comment.
-/

namespace PredictedMovement

/-- Counts of handler invocations made during one call of
`NotifyModifierChanged`: how many times `OnModifierAdded`,
`OnModifierRemoved` and `OnModifierChanged` were invoked. -/
structure NotifyCounts where
  addedCount : Nat
  removedCount : Nat
  changedCount : Nat
  deriving Repr, DecidableEq

/-- One invocation of the `OnModifierAdded` handler. -/
def fireAdded (c : NotifyCounts) : NotifyCounts :=
  { c with addedCount := c.addedCount + 1 }

/-- One invocation of the `OnModifierRemoved` handler. -/
def fireRemoved (c : NotifyCounts) : NotifyCounts :=
  { c with removedCount := c.removedCount + 1 }

/-- One invocation of the `OnModifierChanged` handler. -/
def fireChanged (c : NotifyCounts) : NotifyCounts :=
  { c with changedCount := c.changedCount + 1 }

/-- Shallow embedding of `AModifierCharacter::NotifyModifierChanged`
(ModifierCharacter.h lines 36-50).  The template parameter `T` is a `uint8`
level value at every instantiation site in this class; no arithmetic is
performed on it, so it is modelled as `Nat`.  The three `FGameplayTag`
arguments (`ModifierType`, `ModifierLevel`, `PrevModifierLevel`) are passed
through to the handlers unchanged and do not affect which handlers run;
they are likewise modelled as `Nat` identifiers.  The function returns how
often each handler was invoked. -/
def NotifyModifierChanged (ModifierType ModifierLevel PrevModifierLevel : Nat)
    (ModifierLevelValue PrevModifierLevelValue InvalidLevel : Nat) : NotifyCounts :=
  let c : NotifyCounts := ⟨0, 0, 0⟩
  let c :=
    if ModifierLevelValue ≠ InvalidLevel ∧ PrevModifierLevelValue = InvalidLevel then
      fireAdded c
    else if ModifierLevelValue = InvalidLevel ∧ PrevModifierLevelValue ≠ InvalidLevel then
      fireRemoved c
    else
      c
  fireChanged c

/-- Modelled from the spec: the `NO_MODIFIER` sentinel byte value.  The
constant is defined in `ModifierTypes.h`, which is not part of the repository
slice; the spec only requires it to be the single reserved wire value meaning
"no active level".  The codec below reserves wire value `0` for it. -/
def NO_MODIFIER : Nat := 0

/-- Modelled from the spec: `ReplicationCodec.Encode` (spec §4.4).  Level
identifiers are the ordinals `0, 1, 2, ...` of the category's fixed level set
(new levels append at the end, never renumbering); `none` is the sentinel.
Ordinal `i` encodes to wire value `i + 1`, the sentinel to the reserved
`NO_MODIFIER` value. -/
def encodeLevel : Option Nat → Nat
  | none => NO_MODIFIER
  | some l => l + 1

/-- Modelled from the spec: `ReplicationCodec.Decode` (spec §4.4 and §7).
Wire value `NO_MODIFIER` decodes to the sentinel; any other byte decodes to
the level of ordinal `b - 1`. -/
def decodeLevel (b : Nat) : Option Nat :=
  if b = NO_MODIFIER then none else some (b - 1)

/-- Modelled from the spec: one active `ModifierEntry` of a category's stack
(spec §3): a level identifier plus the origin that requested it.  Insertion
order is the position in the stack list. -/
structure ModifierEntry where
  level : Nat
  origin : Nat
  deriving Repr, DecidableEq

/-- Modelled from the spec: a category's `ModifierStack` (spec §3, §4.1) —
the ordered sequence of active entries, earliest-inserted first. -/
abbrev ModifierStack := List ModifierEntry

/-- Modelled from the spec: `ModifierStack.Add` (spec §4.1) — inserts a new
entry, never rejecting duplicates (stacking is additive). -/
def addEntry (level origin : Nat) (s : ModifierStack) : ModifierStack :=
  s ++ [⟨level, origin⟩]

/-- Number of entries of the given level in the stack. -/
def countLevel (level : Nat) (s : ModifierStack) : Nat :=
  s.countP (fun e => e.level == level)

/-- Modelled from the spec: the single-removal pass of `ModifierStack.Remove`
(spec §4.1) — deletes the earliest-inserted entry matching the level, if any. -/
def removeOne (level : Nat) : ModifierStack → ModifierStack
  | [] => []
  | e :: rest => if e.level = level then rest else e :: removeOne level rest

/-- Modelled from the spec: `ModifierStack.Remove(level, removeAll)`
(spec §4.1).  With `removeAll` it deletes every matching entry, otherwise
only the earliest-inserted match; it returns the new stack together with the
removed count, `0` (a non-error no-op) when nothing matches. -/
def removeEntries (level : Nat) (removeAll : Bool) (s : ModifierStack) :
    ModifierStack × Nat :=
  if removeAll then
    (s.filter (fun e => !(e.level == level)), countLevel level s)
  else if 0 < countLevel level s then
    (removeOne level s, 1)
  else
    (s, 0)

/-- The highest level ordinal occurring in the stack (`0` on an empty stack). -/
def maxLevel (s : ModifierStack) : Nat :=
  s.foldr (fun e m => max e.level m) 0

/-- Modelled from the spec: the entry that determines the effective level
under the default tie-break policy (spec §4.1): the highest-ordinal active
level wins; among equal-ordinal entries the earliest-inserted wins. -/
def effectiveEntry : ModifierStack → Option ModifierEntry
  | [] => none
  | e :: rest =>
    match effectiveEntry rest with
    | none => some e
    | some b => if e.level < b.level then some b else some e

/-- Modelled from the spec: `ModifierStack.EffectiveLevel` (spec §4.1) — the
pure query returning the winning entry's level, or the sentinel (`none`) on
an empty stack. -/
def effectiveLevel (s : ModifierStack) : Option Nat :=
  (effectiveEntry s).map ModifierEntry.level

/-- The replicated per-category summary state of `AModifierCharacter`
(ModifierCharacter.h lines 78-79, 129-130, 181-182): each `uint8` member is
initialized to `NO_MODIFIER` by its member initializer.  Modelled as `Nat`
(no arithmetic is performed on the values). -/
structure AModifierCharacter where
  SimulatedBoost : Nat := NO_MODIFIER
  SimulatedSnare : Nat := NO_MODIFIER
  SimulatedSlowFall : Nat := NO_MODIFIER
  deriving Repr, DecidableEq

/-- A freshly constructed character: every member takes its initializer. -/
def freshModifierCharacter : AModifierCharacter := {}

/-- Modelled from the spec: `IsBoostActive` (declared ModifierCharacter.h
line 121, implementation not in the slice) — the doc comment says it reports
whether this character has an active Boost, i.e. whether the summary differs
from the sentinel. -/
def IsBoostActive (c : AModifierCharacter) : Bool :=
  c.SimulatedBoost != NO_MODIFIER

/-- Modelled from the spec: `IsSnareActive` (declared ModifierCharacter.h
line 173), analogous to `IsBoostActive`. -/
def IsSnareActive (c : AModifierCharacter) : Bool :=
  c.SimulatedSnare != NO_MODIFIER

/-- Modelled from the spec: `IsSlowFallActive` (declared ModifierCharacter.h
line 222), analogous to `IsBoostActive`. -/
def IsSlowFallActive (c : AModifierCharacter) : Bool :=
  c.SimulatedSlowFall != NO_MODIFIER

/-- The stack produced by the C4 scenario: starting from the empty stack,
Add(t1, o1), Add(t2, o2), Remove(t1, removeAll = false). -/
def c4Stack (t1 t2 o1 o2 : Nat) : ModifierStack :=
  (removeEntries t1 false (addEntry t2 o2 (addEntry t1 o1 []))).1

/-- Modelled from the spec: the operation carried by a request or
`PredictionRecord` (spec §3, §6): add a level from an origin, or remove a
level (one match or all matches). -/
inductive ModOp where
  | add (level origin : Nat)
  | remove (level : Nat) (removeAll : Bool)
  deriving Repr, DecidableEq

/-- Apply one operation to a stack. -/
def applyOp (op : ModOp) (s : ModifierStack) : ModifierStack :=
  match op with
  | .add level origin => addEntry level origin s
  | .remove level removeAll => (removeEntries level removeAll s).1

/-- Modelled from the spec: a `PredictionRecord` (spec §3): the issuing
simulation tick, the issuance sequence number within that tick, and the
requested operation. -/
structure PredictionRecord where
  tick : Nat
  seq : Nat
  op : ModOp
  deriving Repr, DecidableEq

/-- Apply a list of records to a stack, in list order. -/
def applyRecords (rs : List PredictionRecord) (s : ModifierStack) : ModifierStack :=
  rs.foldl (fun acc r => applyOp r.op acc) s

/-- Tick order on records (spec §5): primarily by issuing tick, within a tick
by issuance sequence number. -/
def recLE (a b : PredictionRecord) : Prop :=
  a.tick < b.tick ∨ (a.tick = b.tick ∧ a.seq ≤ b.seq)

instance : DecidableRel recLE := fun a b =>
  if h : a.tick < b.tick ∨ (a.tick = b.tick ∧ a.seq ≤ b.seq) then
    Decidable.isTrue h
  else
    Decidable.isFalse h

instance : IsTotal PredictionRecord recLE :=
  ⟨fun a b => by
    unfold recLE
    rcases Nat.lt_trichotomy a.tick b.tick with h | h | h
    · exact Or.inl (Or.inl h)
    · rcases Nat.le_total a.seq b.seq with hs | hs
      · exact Or.inl (Or.inr ⟨h, hs⟩)
      · exact Or.inr (Or.inr ⟨h.symm, hs⟩)
    · exact Or.inr (Or.inl h)⟩

instance : IsTrans PredictionRecord recLE :=
  ⟨fun a b c hab hbc => by
    unfold recLE at hab hbc ⊢
    rcases hab with h1 | ⟨h1, h1s⟩ <;> rcases hbc with h2 | ⟨h2, h2s⟩
    · exact Or.inl (h1.trans h2)
    · exact Or.inl (h2 ▸ h1)
    · exact Or.inl (h1 ▸ h2)
    · exact Or.inr ⟨h1.trans h2, h1s.trans h2s⟩⟩

/-- Modelled from the spec: the drain-then-apply pass (spec §5): inbound
requests/records arrive asynchronously in arbitrary order, are drained into
ordered per-tick queues (sorted into tick order), and are then applied to the
stack in one deterministic pass.  The client's rollback-and-replay correction
(spec §4.3) is this same routine run on the last authoritative stack with the
still-unacknowledged records; the server's authoritative state is this
routine run on the same base with the records it received. -/
def drainAndApply (base : ModifierStack) (arrived : List PredictionRecord) :
    ModifierStack :=
  applyRecords (List.insertionSort recLE arrived) base

end PredictedMovement

namespace PredictedMovement

/-- C1 counterexample: calling the change-notification routine with equal
previous and new level values (and equal tags) is not a no-op — the
`OnModifierChanged` handler still fires, so not every event class is silent. -/
theorem notify_equal_levels_not_noop :
    ¬ ((NotifyModifierChanged 0 7 7 5 5 0).addedCount = 0 ∧
       (NotifyModifierChanged 0 7 7 5 5 0).removedCount = 0 ∧
       (NotifyModifierChanged 0 7 7 5 5 0).changedCount = 0) := by
  decide

/-- C1 (amended): calling the change-notification routine with equal previous
and new level values fires no Added and no Removed event, but the Changed
event still fires exactly once — it is unconditional on every call. -/
theorem notify_equal_levels_only_changed
    (ty lvlTag prevTag lvl invalid : Nat) :
    NotifyModifierChanged ty lvlTag prevTag lvl lvl invalid = ⟨0, 0, 1⟩ := by
  unfold NotifyModifierChanged fireAdded fireRemoved fireChanged
  by_cases h : lvl = invalid <;> simp [h]

/-- C2: the Added handler fires iff the previous value is the sentinel and the
new value is not; the Removed handler fires iff the previous value is not the
sentinel and the new value is. -/
theorem notify_added_removed_iff
    (ty lvlTag prevTag lvl prev invalid : Nat) :
    ((NotifyModifierChanged ty lvlTag prevTag lvl prev invalid).addedCount = 1 ↔
      (prev = invalid ∧ lvl ≠ invalid)) ∧
    ((NotifyModifierChanged ty lvlTag prevTag lvl prev invalid).removedCount = 1 ↔
      (prev ≠ invalid ∧ lvl = invalid)) := by
  unfold NotifyModifierChanged fireAdded fireRemoved fireChanged
  by_cases h1 : lvl = invalid <;> by_cases h2 : prev = invalid <;>
    simp [h1, h2]

/-- C3: whenever the previous and new level values differ, the Changed handler
fires (exactly once), including calls where Added or Removed also fires. -/
theorem notify_changed_fires_on_diff
    (ty lvlTag prevTag lvl prev invalid : Nat) (h : lvl ≠ prev) :
    (NotifyModifierChanged ty lvlTag prevTag lvl prev invalid).changedCount = 1 := by
  unfold NotifyModifierChanged fireAdded fireRemoved fireChanged
  by_cases h1 : lvl = invalid <;> by_cases h2 : prev = invalid <;> simp [h1, h2]

/-- C3 witness: on the concrete sentinel→non-sentinel transition 0 → 2
(where Added also fires), Changed fires. -/
theorem notify_changed_fires_on_diff_witness :
    (2 : Nat) ≠ 0 ∧ (NotifyModifierChanged 0 1 0 2 0 0).changedCount = 1 :=
  ⟨by decide, notify_changed_fires_on_diff 0 1 0 2 0 0 (by decide)⟩

/-- C9: on every call, the Changed handler is invoked exactly once —
unconditionally, even when the values are equal — and Added and Removed are
mutually exclusive within the call (at most one of them is invoked). -/
theorem notify_changed_once_added_removed_exclusive
    (ty lvlTag prevTag lvl prev invalid : Nat) :
    (NotifyModifierChanged ty lvlTag prevTag lvl prev invalid).changedCount = 1 ∧
    (NotifyModifierChanged ty lvlTag prevTag lvl prev invalid).addedCount +
      (NotifyModifierChanged ty lvlTag prevTag lvl prev invalid).removedCount ≤ 1 := by
  unfold NotifyModifierChanged fireAdded fireRemoved fireChanged
  by_cases h1 : lvl = invalid <;> by_cases h2 : prev = invalid <;> simp [h1, h2]

/-- C6: the codec round-trips every level including the sentinel, is injective
(hence collision-free on any finite level set), and the sentinel encodes to
the reserved `NO_MODIFIER` wire value.  Totality is by construction. -/
theorem codec_roundtrip_injective (L M : Option Nat) :
    decodeLevel (encodeLevel L) = L ∧
    (encodeLevel L = encodeLevel M → L = M) ∧
    encodeLevel none = NO_MODIFIER := by
  refine ⟨?_, ?_, rfl⟩
  · cases L <;> simp [encodeLevel, decodeLevel, NO_MODIFIER]
  · intro h
    cases L <;> cases M <;> simp_all [encodeLevel, NO_MODIFIER]

/-- C6 witness: the round-trip and injectivity instantiated at level
ordinal 3. -/
theorem codec_roundtrip_injective_witness :
    decodeLevel (encodeLevel (some 3)) = some 3 ∧
    ((some 3 : Option Nat) = some 3) ∧
    encodeLevel none = NO_MODIFIER :=
  ⟨(codec_roundtrip_injective (some 3) (some 3)).1,
   (codec_roundtrip_injective (some 3) (some 3)).2.1 rfl,
   (codec_roundtrip_injective (some 3) (some 3)).2.2⟩

/-- C10: a freshly constructed character has every replicated summary equal to
the `NO_MODIFIER` sentinel, so no category reports an active modifier. -/
theorem fresh_character_all_sentinel :
    freshModifierCharacter.SimulatedBoost = NO_MODIFIER ∧
    freshModifierCharacter.SimulatedSnare = NO_MODIFIER ∧
    freshModifierCharacter.SimulatedSlowFall = NO_MODIFIER ∧
    IsBoostActive freshModifierCharacter = false ∧
    IsSnareActive freshModifierCharacter = false ∧
    IsSlowFallActive freshModifierCharacter = false := by
  decide

/-- C4 counterexample: in the scenario Add(T1), Add(T2), Remove(T1) with
T1 = 1 < T2 = 2, the single effective transition is sentinel→T2, and the
change-notification routine invoked on that transition fires the Changed
handler — the claim's "zero Changed events" is false. -/
theorem c4_zero_changed_counterexample :
    (NotifyModifierChanged 0 0 0
      (encodeLevel (effectiveLevel (c4Stack 1 2 0 1)))
      (encodeLevel (effectiveLevel ([] : ModifierStack)))
      NO_MODIFIER).changedCount ≠ 0 := by
  decide

/-- C4 (amended): for an initially empty stack receiving Add(t1), Add(t2),
Remove(t1) with t2 the maximum throughout, the effective level goes from the
sentinel to t2, and the notification for that single batched transition fires
exactly one Added, zero Removed, and one Changed event (Changed fires
unconditionally on the transition). -/
theorem c4_exactly_one_added_one_changed (t1 t2 o1 o2 : Nat) (h : t1 ≤ t2) :
    effectiveLevel ([] : ModifierStack) = none ∧
    effectiveLevel (c4Stack t1 t2 o1 o2) = some t2 ∧
    NotifyModifierChanged 0 0 0
      (encodeLevel (effectiveLevel (c4Stack t1 t2 o1 o2)))
      (encodeLevel (effectiveLevel ([] : ModifierStack)))
      NO_MODIFIER = ⟨1, 0, 1⟩ := by
  have hstack : c4Stack t1 t2 o1 o2 = [⟨t2, o2⟩] := by
    simp [c4Stack, addEntry, removeEntries, countLevel, List.countP_cons, removeOne]
  refine ⟨rfl, ?_, ?_⟩
  · simp [hstack, effectiveLevel, effectiveEntry]
  · simp [hstack, effectiveLevel, effectiveEntry, encodeLevel, NO_MODIFIER,
      NotifyModifierChanged, fireAdded, fireChanged]

/-- Helper: when some entry matches, `removeOne` deletes exactly the
earliest-inserted match and nothing else. -/
theorem removeOne_earliest (level : Nat) :
    ∀ (s : ModifierStack), 0 < countLevel level s →
    ∃ l₁ m l₂, s = l₁ ++ m :: l₂ ∧ m.level = level ∧
      (∀ x ∈ l₁, x.level ≠ level) ∧ removeOne level s = l₁ ++ l₂ := by
  intro s
  induction s with
  | nil => intro h; simp [countLevel] at h
  | cons e rest ih =>
    intro h
    by_cases he : e.level = level
    · exact ⟨[], e, rest, by simp, he, by simp, by simp [removeOne, he]⟩
    · have hc : 0 < countLevel level rest := by
        simpa [countLevel, List.countP_cons, he] using h
      obtain ⟨l₁, m, l₂, hs, hm, hl₁, hr⟩ := ih hc
      refine ⟨e :: l₁, m, l₂, by simp [hs], hm, ?_, ?_⟩
      · intro x hx
        rcases List.mem_cons.mp hx with h | h
        · exact h ▸ he
        · exact hl₁ x h
      · simp [removeOne, he, hr]

/-- C5: removal semantics.  When no entry matches the level, `Remove` is a
non-error no-op returning `0` for either mode; with `removeAll = false` it
deletes exactly the earliest-inserted match and reports `1`; with
`removeAll = true` it deletes every match (no matching entry survives) while
leaving the count of every other level untouched. -/
theorem remove_semantics (level : Nat) (s : ModifierStack) :
    (countLevel level s = 0 → ∀ b, removeEntries level b s = (s, 0)) ∧
    (0 < countLevel level s →
      ∃ l₁ m l₂, s = l₁ ++ m :: l₂ ∧ m.level = level ∧
        (∀ x ∈ l₁, x.level ≠ level) ∧
        removeEntries level false s = (l₁ ++ l₂, 1)) ∧
    countLevel level (removeEntries level true s).1 = 0 ∧
    (∀ lvl, lvl ≠ level → countLevel lvl (removeEntries level true s).1 = countLevel lvl s) := by
  refine ⟨?_, ?_, ?_, ?_⟩
  · intro h0 b
    have hall : ∀ e ∈ s, ¬ (e.level == level) = true := by
      rw [countLevel] at h0
      exact List.countP_eq_zero.mp h0
    cases b
    · simp [removeEntries, h0]
    · have hfilter : s.filter (fun e => !(e.level == level)) = s := by
        refine List.filter_eq_self.mpr ?_
        intro a ha
        simpa using hall a ha
      simp [removeEntries, hfilter, h0]
  · intro hpos
    obtain ⟨l₁, m, l₂, hs, hm, hl₁, hr⟩ := removeOne_earliest level s hpos
    exact ⟨l₁, m, l₂, hs, hm, hl₁, by simp [removeEntries, hpos, hr]⟩
  · simp only [removeEntries, if_pos, countLevel, List.countP_filter]
    refine List.countP_eq_zero.mpr ?_
    intro a _
    simp
  · intro lvl hne
    simp only [removeEntries, if_pos, countLevel, List.countP_filter]
    refine List.countP_congr ?_
    intro a _
    by_cases h : a.level = level <;> simp [h, hne, Ne.symm hne]

/-- C5 witness: no-op removal of an absent level, and earliest-match removal
at a concrete two-match stack. -/
theorem remove_semantics_witness :
    removeEntries 3 false [⟨1, 0⟩] = ([⟨1, 0⟩], 0) ∧
    ∃ l₁ m l₂, ([⟨1, 4⟩, ⟨2, 5⟩, ⟨1, 6⟩] : ModifierStack) = l₁ ++ m :: l₂ ∧
      m.level = 1 ∧ (∀ x ∈ l₁, x.level ≠ 1) ∧
      removeEntries 1 false [⟨1, 4⟩, ⟨2, 5⟩, ⟨1, 6⟩] = (l₁ ++ l₂, 1) :=
  ⟨(remove_semantics 3 [⟨1, 0⟩]).1 (by decide) false,
   (remove_semantics 1 [⟨1, 4⟩, ⟨2, 5⟩, ⟨1, 6⟩]).2.1 (by decide)⟩

/-- Helper: a non-empty stack has a winning entry and its level is the
highest level ordinal present. -/
theorem effectiveEntry_spec :
    ∀ (s : ModifierStack), s ≠ [] →
    ∃ b, effectiveEntry s = some b ∧ b.level = maxLevel s := by
  intro s
  induction s with
  | nil => intro h; exact absurd rfl h
  | cons e rest ih =>
    intro _
    by_cases hrest : rest = []
    · subst hrest
      refine ⟨e, rfl, ?_⟩
      have : maxLevel [e] = max e.level 0 := rfl
      omega
    · obtain ⟨b, hb, hbl⟩ := ih hrest
      have hmax : maxLevel (e :: rest) = max e.level (maxLevel rest) := rfl
      by_cases hlt : e.level < b.level
      · exact ⟨b, by simp [effectiveEntry, hb, hlt], by omega⟩
      · exact ⟨e, by simp [effectiveEntry, hb, hlt], by omega⟩

/-- Helper: the winning entry is the earliest-inserted entry attaining the
highest level ordinal, i.e. the first match of `find?`. -/
theorem effectiveEntry_eq_find :
    ∀ (s : ModifierStack),
    effectiveEntry s = s.find? (fun e => e.level == maxLevel s) := by
  intro s
  induction s with
  | nil => rfl
  | cons e rest ih =>
    by_cases hrest : rest = []
    · subst hrest
      have h1 : maxLevel [e] = e.level := by
        have : maxLevel [e] = max e.level 0 := rfl
        omega
      rw [h1, List.find?_cons_of_pos]
      · rfl
      · simp
    · obtain ⟨b, hb, hbl⟩ := effectiveEntry_spec rest hrest
      have hmax : maxLevel (e :: rest) = max e.level (maxLevel rest) := rfl
      by_cases hlt : e.level < b.level
      · have hL : effectiveEntry (e :: rest) = some b := by
          simp [effectiveEntry, hb, hlt]
        have hm2 : maxLevel (e :: rest) = maxLevel rest := by omega
        rw [hL, hm2, List.find?_cons_of_neg]
        · rw [← ih]
          exact hb.symm
        · simp only [beq_iff_eq]
          omega
      · have hL : effectiveEntry (e :: rest) = some e := by
          simp [effectiveEntry, hb, hlt]
        have hm2 : maxLevel (e :: rest) = e.level := by omega
        rw [hL, hm2, List.find?_cons_of_pos]
        simp

/-- C7: on every non-empty stack the effective level is the highest level
ordinal among the active entries, and the winning entry is the
earliest-inserted entry of that ordinal (the first `find?` match).  Both are
pure functions of the current entries. -/
theorem effective_level_highest_earliest (s : ModifierStack) (h : s ≠ []) :
    effectiveLevel s = some (maxLevel s) ∧
    effectiveEntry s = s.find? (fun e => e.level == maxLevel s) := by
  obtain ⟨b, hb, hbl⟩ := effectiveEntry_spec s h
  exact ⟨by simp [effectiveLevel, hb, hbl], effectiveEntry_eq_find s⟩

/-- C7 witness: a stack with an equal-ordinal tie — the effective level is
the maximum and the earliest of the two ordinal-2 entries wins. -/
theorem effective_level_highest_earliest_witness :
    effectiveLevel [⟨1, 0⟩, ⟨2, 1⟩, ⟨2, 2⟩] =
      some (maxLevel [⟨1, 0⟩, ⟨2, 1⟩, ⟨2, 2⟩]) ∧
    effectiveEntry [⟨1, 0⟩, ⟨2, 1⟩, ⟨2, 2⟩] =
      List.find? (fun e => e.level == maxLevel [⟨1, 0⟩, ⟨2, 1⟩, ⟨2, 2⟩])
        [⟨1, 0⟩, ⟨2, 1⟩, ⟨2, 2⟩] :=
  effective_level_highest_earliest [⟨1, 0⟩, ⟨2, 1⟩, ⟨2, 2⟩] (by decide)

/-- C4 witness: the amended scenario at T1 = 1, T2 = 2. -/
theorem c4_exactly_one_added_one_changed_witness :
    effectiveLevel ([] : ModifierStack) = none ∧
    effectiveLevel (c4Stack 1 2 0 1) = some 2 ∧
    NotifyModifierChanged 0 0 0
      (encodeLevel (effectiveLevel (c4Stack 1 2 0 1)))
      (encodeLevel (effectiveLevel ([] : ModifierStack)))
      NO_MODIFIER = ⟨1, 0, 1⟩ :=
  c4_exactly_one_added_one_changed 1 2 0 1 (by decide)

/-- Helper: two tick-sorted lists that are permutations of each other are
equal, provided (tick, seq) identifies each record in the list. -/
theorem eq_of_perm_sorted_tickseq :
    ∀ (l₁ l₂ : List PredictionRecord),
    l₁.Perm l₂ → l₁.Sorted recLE → l₂.Sorted recLE →
    (∀ a ∈ l₁, ∀ b ∈ l₁, a.tick = b.tick → a.seq = b.seq → a = b) →
    l₁ = l₂ := by
  intro l₁
  induction l₁ with
  | nil =>
    intro l₂ hp _ _ _
    exact hp.nil_eq
  | cons a t₁ ih =>
    intro l₂ hp hs₁ hs₂ hinj
    cases l₂ with
    | nil => simpa using hp.length_eq
    | cons b t₂ =>
      have hab : a = b := by
        by_cases h : a = b
        · exact h
        · have ha2 : a ∈ b :: t₂ := hp.mem_iff.mp (List.mem_cons_self a t₁)
          have hb1 : b ∈ a :: t₁ := hp.mem_iff.mpr (List.mem_cons_self b t₂)
          have hat2 : a ∈ t₂ := by
            rcases List.mem_cons.mp ha2 with h' | h'
            · exact absurd h' h
            · exact h'
          have hbt1 : b ∈ t₁ := by
            rcases List.mem_cons.mp hb1 with h' | h'
            · exact absurd h'.symm h
            · exact h'
          have h₁ : recLE a b := (List.sorted_cons.mp hs₁).1 b hbt1
          have h₂ : recLE b a := (List.sorted_cons.mp hs₂).1 a hat2
          unfold recLE at h₁ h₂
          rcases h₁ with h₁ | ⟨h₁t, h₁s⟩ <;> rcases h₂ with h₂ | ⟨h₂t, h₂s⟩
          · exact absurd (h₁.trans h₂) (lt_irrefl _)
          · exact absurd h₁ (by omega)
          · exact absurd h₂ (by omega)
          · exact hinj a (List.mem_cons_self a t₁) b (List.mem_cons_of_mem a hbt1)
              h₁t (Nat.le_antisymm h₁s h₂s)
      subst hab
      have hinjt : ∀ x ∈ t₁, ∀ y ∈ t₁, x.tick = y.tick → x.seq = y.seq → x = y := by
        intro x hx y hy
        exact hinj x (List.mem_cons_of_mem a hx) y (List.mem_cons_of_mem a hy)
      rw [ih t₂ hp.cons_inv (List.sorted_cons.mp hs₁).2 (List.sorted_cons.mp hs₂).2 hinjt]

/-- Helper: the drain pass is deterministic — any two arrival orders of the
same records sort to the same tick-ordered queue. -/
theorem drain_deterministic (records arrival₁ arrival₂ : List PredictionRecord)
    (h₁ : arrival₁.Perm records) (h₂ : arrival₂.Perm records)
    (hinj : ∀ a ∈ records, ∀ b ∈ records, a.tick = b.tick → a.seq = b.seq → a = b) :
    List.insertionSort recLE arrival₁ = List.insertionSort recLE arrival₂ := by
  apply eq_of_perm_sorted_tickseq
  · exact (List.perm_insertionSort recLE arrival₁).trans
      (h₁.trans (h₂.symm.trans (List.perm_insertionSort recLE arrival₂).symm))
  · exact List.sorted_insertionSort recLE arrival₁
  · exact List.sorted_insertionSort recLE arrival₂
  · intro a ha b hb
    have ha' : a ∈ records :=
      h₁.mem_iff.mp ((List.perm_insertionSort recLE arrival₁).mem_iff.mp ha)
    have hb' : b ∈ records :=
      h₁.mem_iff.mp ((List.perm_insertionSort recLE arrival₁).mem_iff.mp hb)
    exact hinj a ha' b hb'

/-- C8: convergence of the rollback-and-replay reconciliation.  Starting from
the last authoritative stack, the client's correction replays its
still-unacknowledged records through the drain pass, while the server applies
the same records through its own drain pass; whatever tick-order-respecting
arrival reordering each side saw, both reach the same stack — and hence the
same effective level — within that one correction cycle.  The (tick, seq)
pair identifies each record (seq is the issuance order within a tick). -/
theorem reconciliation_convergence (authBase : ModifierStack)
    (records arrivalServer arrivalClient : List PredictionRecord)
    (h₁ : arrivalServer.Perm records) (h₂ : arrivalClient.Perm records)
    (hinj : ∀ a ∈ records, ∀ b ∈ records, a.tick = b.tick → a.seq = b.seq → a = b) :
    drainAndApply authBase arrivalClient = drainAndApply authBase arrivalServer ∧
    effectiveLevel (drainAndApply authBase arrivalClient) =
      effectiveLevel (drainAndApply authBase arrivalServer) := by
  have h := drain_deterministic records arrivalClient arrivalServer h₂ h₁ hinj
  unfold drainAndApply
  rw [h]
  exact ⟨rfl, rfl⟩

/-- C8 witness: an Add issued at tick 10 and a Remove issued at tick 11,
delivered to the client in reverse order, reconcile to the server's state. -/
theorem reconciliation_convergence_witness :
    drainAndApply [] [⟨11, 1, .remove 1 false⟩, ⟨10, 0, .add 1 0⟩] =
      drainAndApply [] [⟨10, 0, .add 1 0⟩, ⟨11, 1, .remove 1 false⟩] ∧
    effectiveLevel (drainAndApply [] [⟨11, 1, .remove 1 false⟩, ⟨10, 0, .add 1 0⟩]) =
      effectiveLevel (drainAndApply [] [⟨10, 0, .add 1 0⟩, ⟨11, 1, .remove 1 false⟩]) :=
  reconciliation_convergence []
    [⟨10, 0, .add 1 0⟩, ⟨11, 1, .remove 1 false⟩]
    [⟨10, 0, .add 1 0⟩, ⟨11, 1, .remove 1 false⟩]
    [⟨11, 1, .remove 1 false⟩, ⟨10, 0, .add 1 0⟩]
    (by decide) (by decide) (by decide)

end PredictedMovement
